import Mathlib

/-!
A shallow embedding of the `ToolOrchestrator` class of
`packages/core/src/server/tools/ToolOrchestrator.ts` (gemini-cli-client).

The orchestrator's mutable fields (`toolScheduler`, `currentResponse`,
`toolCompletionCallback`, `sentConfirmationEvents`) become an explicit
state record `OrchState`.  Event emission through the
`StreamingEventService` (`sendToolCallEvent`, `sendToolConfirmationEvent`,
`sendToolExecutionEvent`, `sendToolResultEvent`) becomes a returned list of
`Event` values tagged with the channel (`express.Response`) they were sent
on; channels are identified by a `Nat`.  Throwing `new Error(...)` becomes
an `Except` error result, which models the exception propagating
synchronously to the immediate caller.

The `CoreToolScheduler` itself lives in `packages/core/src/core/`, outside
the sources at hand; the orchestrator only reads its `toolCalls` array (via
an `any`-cast), so the scheduler is embedded as the read view
`SchedulerView` of that array.  The scheduler-owned enums
(`ToolCallStatus`, `ToolConfirmationOutcome`) are modelled from the spec
where noted.
-/

/-- Modelled from the spec: the per-call status enum owned by the
`CoreToolScheduler` (whose source is outside the files at hand).  §4.1 of
the spec gives the states `validating`, `awaiting_approval`, `executing`,
`success`, `error`, `cancelled`.  The orchestrator compares these as string
literals; here they are an inductive type. -/
inductive ToolCallStatus where
  | validating
  | awaitingApproval
  | executing
  | success
  | error
  | cancelled
deriving DecidableEq, Repr

/-- One value of a tool call's `args` map, as far as the orchestrator
inspects it: `handleToolCallsUpdate` tests
`typeof toolCall.request.args?.command === 'string'`, so a value is either
a string or something else. -/
inductive ArgVal where
  | str (s : String)
  | other
deriving DecidableEq, Repr

/-- The opaque `args` payload of a request.  The orchestrator reads only
the `command` key (which may be absent or not a string); the rest is
carried verbatim and never interpreted. -/
structure ToolArgs where
  command : Option ArgVal
  rest : List (String × String)
deriving DecidableEq, Repr

/-- `ToolCallRequestInfo` as the orchestrator reads it: `callId`, `name`,
`args` (the whole record may have `args` undefined, hence `Option`). -/
structure ToolCallRequestInfo where
  callId : String
  name : String
  args : Option ToolArgs
deriving DecidableEq, Repr

/-- The part of a call's `confirmationDetails` the orchestrator touches:
the `onConfirm` continuation, identified opaquely by a number. -/
structure ConfirmationDetails where
  onConfirm : Nat
deriving DecidableEq, Repr

/-- The scheduler-owned `ToolCall` record, restricted to the fields the
orchestrator reads or writes: `request`, `status`, `confirmationDetails`. -/
structure ToolCall where
  request : ToolCallRequestInfo
  status : ToolCallStatus
  confirmationDetails : Option ConfirmationDetails
deriving DecidableEq, Repr

/-- The read view of the `CoreToolScheduler` that the orchestrator reaches
through `(this.toolScheduler as any).toolCalls`. -/
structure SchedulerView where
  toolCalls : List ToolCall
deriving DecidableEq, Repr

/-- The mutable fields of the `ToolOrchestrator` class.  The completion
callback is external code, so only its presence is recorded. -/
structure OrchState where
  toolScheduler : Option SchedulerView
  currentResponse : Option Nat
  toolCompletionCallback : Bool
  sentConfirmationEvents : List String
deriving DecidableEq, Repr

/-- An event sent through the `StreamingEventService`, tagged with the
channel it was sent on.  The four constructors correspond to
`sendToolCallEvent`, `sendToolConfirmationEvent`, `sendToolExecutionEvent`
and `sendToolResultEvent`. -/
inductive Event where
  | toolCall (channel : Nat) (callId name : String) (args : Option ToolArgs)
  | toolConfirmation (channel : Nat) (callId name : String)
      (command : Option String) (args : Option ToolArgs)
  | toolExecution (channel : Nat) (callId status message : String)
  | toolResult (channel : Nat) (call : ToolCall)
deriving DecidableEq, Repr

/-- The synchronous failures `ToolOrchestrator` methods can throw.
`notFoundOrNotAwaiting` is the single combined error
`'Tool call not found or not awaiting approval'` thrown by
`handleToolConfirmation` for both a missing call and a call in the wrong
state. -/
inductive OrchError where
  | notInitialized
  | invalidOutcome (outcome : String)
  | notFoundOrNotAwaiting
deriving DecidableEq, Repr

/-- One observable step `scheduleToolCalls` performs, in program order:
record the channel as current, emit an event on it, or hand the request
batch to `CoreToolScheduler.schedule`. -/
inductive SchedAction where
  | setCurrentResponse (channel : Nat)
  | emit (e : Event)
  | delegateSchedule (requests : List ToolCallRequestInfo)
deriving DecidableEq, Repr

/-- The `for (const request of requests)` loop of `scheduleToolCalls`:
one `sendToolCallEvent(response, callId, name, args)` per request, in
request order. -/
def startedActions (channel : Nat) : List ToolCallRequestInfo → List SchedAction
  | [] => []
  | r :: rs =>
      SchedAction.emit (Event.toolCall channel r.callId r.name r.args) ::
        startedActions channel rs

/-- `scheduleToolCalls(requests, abortSignal, response)`.  Throws
`'Tool scheduler not initialized'` if there is no scheduler (before any
state change); otherwise sets `currentResponse`, emits one started event
per request, and finally delegates the batch to the scheduler.  The result
pairs the successor state with either the error or the ordered action
trace. -/
def scheduleToolCalls (s : OrchState) (requests : List ToolCallRequestInfo)
    (channel : Nat) : OrchState × Except OrchError (List SchedAction) :=
  match s.toolScheduler with
  | none => (s, Except.error OrchError.notInitialized)
  | some _ =>
      ({ s with currentResponse := some channel },
        Except.ok (SchedAction.setCurrentResponse channel ::
          (startedActions channel requests ++
            [SchedAction.delegateSchedule requests])))

/-- `scheduleToolCall(request, abortSignal, response)`: the single-request
entry point, which the source defines as
`await this.scheduleToolCalls([request], abortSignal, response)`. -/
def scheduleToolCall (s : OrchState) (request : ToolCallRequestInfo)
    (channel : Nat) : OrchState × Except OrchError (List SchedAction) :=
  scheduleToolCalls s [request] channel

/-- Modelled from the spec: the recognized `ToolConfirmationOutcome`
values.  The enum is declared in `packages/core/src/tools/tools.ts`,
outside the files at hand; §3 of the spec fixes the four members
`proceedOnce`, `proceedAlways`, `modifyWithEditor`, `cancel`.  An outcome
arrives as a runtime string, so validity is membership in this list, as in
`Object.values(ToolConfirmationOutcome).includes(outcome)`. -/
def validOutcomes : List String :=
  ["proceed_once", "proceed_always", "modify_with_editor", "cancel"]

/-- The data `handleToolConfirmation` hands to
`CoreToolScheduler.handleConfirmationResponse` when all checks pass:
`(callId, toolCall.confirmationDetails.onConfirm, outcome)`. -/
structure ConfirmDelegation where
  callId : String
  onConfirm : Option Nat
  outcome : String
deriving DecidableEq, Repr

/-- `handleToolConfirmation(callId, outcome, abortSignal)`.  In program
order: throw if the scheduler is not initialized; throw
`Invalid outcome value: ...` if `outcome` is not recognized; look the call
up in the scheduler's `toolCalls` and throw the combined error
`'Tool call not found or not awaiting approval'` if it is absent or not
`awaiting_approval`; otherwise delegate to the scheduler.  The method
itself never writes orchestrator state, and on every error path nothing is
delegated, so no state anywhere is mutated. -/
def handleToolConfirmation (s : OrchState) (callId outcome : String) :
    Except OrchError ConfirmDelegation :=
  match s.toolScheduler with
  | none => Except.error OrchError.notInitialized
  | some sched =>
      if validOutcomes.contains outcome then
        match sched.toolCalls.find? (fun tc => tc.request.callId == callId) with
        | none => Except.error OrchError.notFoundOrNotAwaiting
        | some tc =>
            if tc.status = ToolCallStatus.awaitingApproval then
              Except.ok
                { callId := callId
                  onConfirm := tc.confirmationDetails.map (·.onConfirm)
                  outcome := outcome }
            else Except.error OrchError.notFoundOrNotAwaiting
      else Except.error (OrchError.invalidOutcome outcome)

/-- `clearCurrentResponse()`: release the current output channel and clear
the record of already-sent confirmation events. -/
def clearCurrentResponse (s : OrchState) : OrchState :=
  { s with currentResponse := none, sentConfirmationEvents := [] }

/-- The body of the `cancelAllOperations` loop for one call: a call in
`awaiting_approval` or `executing` is forced to `cancelled`
(`toolCall.status = 'cancelled'`), any other call is left alone. -/
def cancelCall (tc : ToolCall) : ToolCall :=
  if tc.status = ToolCallStatus.awaitingApproval ∨
      tc.status = ToolCallStatus.executing then
    { tc with status := ToolCallStatus.cancelled }
  else tc

/-- `cancelAllOperations()`: if a scheduler exists, walk its `toolCalls`
and cancel every `awaiting_approval`/`executing` call in place, then call
`clearCurrentResponse()` (always, scheduler or not). -/
def cancelAllOperations (s : OrchState) : OrchState :=
  let s1 :=
    match s.toolScheduler with
    | none => s
    | some sched =>
        { s with toolScheduler := some ⟨sched.toolCalls.map cancelCall⟩ }
  clearCurrentResponse s1

/-- `handleAllToolCallsComplete(completedCalls)`: when a channel is
current, one `sendToolResultEvent` per completed call in batch order;
then, if the external completion callback is registered, it is invoked
with the full list.  The second component records the argument of that
invocation (`none` when no callback is registered). -/
def handleAllToolCallsComplete (s : OrchState) (completedCalls : List ToolCall) :
    List Event × Option (List ToolCall) :=
  (match s.currentResponse with
    | none => []
    | some resp => completedCalls.map (fun tc => Event.toolResult resp tc),
    if s.toolCompletionCallback then some completedCalls else none)

/-- The `typeof toolCall.request.args?.command === 'string'` extraction
used when building a confirmation event. -/
def extractCommand (args : Option ToolArgs) : Option String :=
  match args with
  | none => none
  | some a =>
      match a.command with
      | some (ArgVal.str s) => some s
      | _ => none

/-- One iteration of the `handleToolCallsUpdate` loop, threading the
`sentConfirmationEvents` set: an `awaiting_approval` call emits a
confirmation event only if its `callId` is not yet in the set and is then
added; `executing`, `cancelled` and `error` emit an execution event;
every other status (`success`, `validating`) emits nothing. -/
def processUpdate (resp : Nat) (sent : List String) (tc : ToolCall) :
    List String × List Event :=
  match tc.status with
  | ToolCallStatus.awaitingApproval =>
      if sent.contains tc.request.callId then (sent, [])
      else
        (tc.request.callId :: sent,
          [Event.toolConfirmation resp tc.request.callId tc.request.name
            (extractCommand tc.request.args) tc.request.args])
  | ToolCallStatus.executing =>
      (sent, [Event.toolExecution resp tc.request.callId "executing"
        ("正在执行 " ++ tc.request.name ++ "...")])
  | ToolCallStatus.cancelled =>
      (sent, [Event.toolExecution resp tc.request.callId "failed"
        ("工具调用已取消: " ++ tc.request.name)])
  | ToolCallStatus.error =>
      (sent, [Event.toolExecution resp tc.request.callId "failed"
        ("工具调用失败: " ++ tc.request.name)])
  | _ => (sent, [])

/-- The `for (const toolCall of toolCalls)` loop of
`handleToolCallsUpdate`, in order, threading the set. -/
def processUpdates (resp : Nat) (sent : List String) :
    List ToolCall → List String × List Event
  | [] => (sent, [])
  | tc :: tcs =>
      let p := processUpdate resp sent tc
      let q := processUpdates resp p.1 tcs
      (q.1, p.2 ++ q.2)

/-- `handleToolCallsUpdate(toolCalls)`: a no-op (no events, no set
mutation) when no channel is current, otherwise the loop above. -/
def handleToolCallsUpdate (s : OrchState) (toolCalls : List ToolCall) :
    OrchState × List Event :=
  match s.currentResponse with
  | none => (s, [])
  | some resp =>
      let q := processUpdates resp s.sentConfirmationEvents toolCalls
      ({ s with sentConfirmationEvents := q.1 }, q.2)

/-- `handleOutputUpdate(toolCallId, outputChunk)`: when a channel is
current, forward the chunk as an execution event; otherwise nothing. -/
def handleOutputUpdate (s : OrchState) (callId outputChunk : String) :
    List Event :=
  match s.currentResponse with
  | none => []
  | some resp => [Event.toolExecution resp callId "executing" outputChunk]

/-- An orchestrator entry point or scheduler callback, as one step of an
execution trace.  These are the operations that can touch the channel, the
de-duplication set, or emit events (`handleToolConfirmation` touches
neither and is settled separately). -/
inductive Op where
  | schedule (requests : List ToolCallRequestInfo) (channel : Nat)
  | update (toolCalls : List ToolCall)
  | outputUpdate (callId outputChunk : String)
  | complete (completedCalls : List ToolCall)
  | clearResponse
  | cancelAll
deriving DecidableEq, Repr

/-- The events an action trace of `scheduleToolCalls` emits. -/
def actionEvents : List SchedAction → List Event
  | [] => []
  | SchedAction.emit e :: rest => e :: actionEvents rest
  | _ :: rest => actionEvents rest

/-- One step of the orchestrator: the successor state and the events
emitted on the output channel during that step. -/
def stepOp (s : OrchState) (op : Op) : OrchState × List Event :=
  match op with
  | Op.schedule reqs ch =>
      let r := scheduleToolCalls s reqs ch
      (r.1, match r.2 with
        | Except.ok actions => actionEvents actions
        | Except.error _ => [])
  | Op.update tcs => handleToolCallsUpdate s tcs
  | Op.outputUpdate cid chunk => (s, handleOutputUpdate s cid chunk)
  | Op.complete calls => (s, (handleAllToolCallsComplete s calls).1)
  | Op.clearResponse => (clearCurrentResponse s, [])
  | Op.cancelAll => (cancelAllOperations s, [])

/-- Run a sequence of operations, collecting all emitted events in
order. -/
def runOps (s : OrchState) : List Op → OrchState × List Event
  | [] => (s, [])
  | op :: ops =>
      let p := stepOp s op
      let q := runOps p.1 ops
      (q.1, p.2 ++ q.2)

/-- Whether an event is a confirmation-request event for `callId = c`. -/
def isConfirmFor (c : String) : Event → Bool
  | Event.toolConfirmation _ callId _ _ _ => callId == c
  | _ => false

/-- How many confirmation-request events for `callId = c` a list of events
contains. -/
def confirmCount (c : String) (evts : List Event) : Nat :=
  (evts.filter (isConfirmFor c)).length

/-- `1` when `c` is in the de-duplication set, else `0`. -/
def indC (c : String) (sent : List String) : Nat :=
  if sent.contains c then 1 else 0

lemma startedActions_eq_map (ch : Nat) (reqs : List ToolCallRequestInfo) :
    startedActions ch reqs =
      reqs.map (fun r => SchedAction.emit (Event.toolCall ch r.callId r.name r.args)) := by
  induction reqs with
  | nil => rfl
  | cons r rs ih => simp [startedActions, ih]

/-- Claim C9: the single-request entry point `scheduleToolCall` behaves
exactly as the batch entry point `scheduleToolCalls` applied to the
singleton list containing that request, for every state, request and
channel. -/
theorem scheduleToolCall_eq_singleton_batch (s : OrchState)
    (r : ToolCallRequestInfo) (ch : Nat) :
    scheduleToolCall s r ch = scheduleToolCalls s [r] ch := rfl

/-- Claim C6: before the scheduler has been initialized with a tool
registry (`toolScheduler = none`), both `scheduleToolCalls` and
`handleToolConfirmation` fail with the not-initialized error for every
input, the failure is returned synchronously to the immediate caller, and
`scheduleToolCalls` leaves the state unchanged (in particular it does not
record the channel as current). -/
theorem notInitialized_failures (s : OrchState)
    (reqs : List ToolCallRequestInfo) (ch : Nat) (callId outcome : String)
    (h : s.toolScheduler = none) :
    scheduleToolCalls s reqs ch = (s, Except.error OrchError.notInitialized) ∧
    handleToolConfirmation s callId outcome =
      Except.error OrchError.notInitialized := by
  constructor
  · simp [scheduleToolCalls, h]
  · simp [handleToolConfirmation, h]

/-- Claim C6 witness: the failure at a concrete uninitialized state. -/
theorem notInitialized_failures_witness :
    (OrchState.toolScheduler ⟨none, some 7, true, ["a"]⟩ = none) ∧
    (scheduleToolCalls ⟨none, some 7, true, ["a"]⟩ [⟨"c1", "ls", none⟩] 3 =
        (⟨none, some 7, true, ["a"]⟩, Except.error OrchError.notInitialized) ∧
      handleToolConfirmation ⟨none, some 7, true, ["a"]⟩ "c1" "cancel" =
        Except.error OrchError.notInitialized) :=
  ⟨rfl, notInitialized_failures ⟨none, some 7, true, ["a"]⟩
    [⟨"c1", "ls", none⟩] 3 "c1" "cancel" rfl⟩

/-- Claim C7: with the scheduler initialized, an outcome outside the four
recognized confirmation-outcome values makes `handleToolConfirmation` fail
with the invalid-outcome error, whatever the scheduler's call list holds —
in particular the failure does not depend on the `callId` lookup, which
shows the validation happens before any lookup or state change. -/
theorem invalidOutcome_rejected (s : OrchState) (sched : SchedulerView)
    (callId outcome : String)
    (hs : s.toolScheduler = some sched)
    (hout : validOutcomes.contains outcome = false) :
    handleToolConfirmation s callId outcome =
      Except.error (OrchError.invalidOutcome outcome) := by
  have hnot : outcome ∉ validOutcomes := by simpa using hout
  simp [handleToolConfirmation, hs, hnot]

/-- Claim C7 witness: a state whose call list even contains an
`awaiting_approval` call with the looked-up id still reports the invalid
outcome. -/
theorem invalidOutcome_rejected_witness :
    (OrchState.toolScheduler
        ⟨some ⟨[⟨⟨"x", "exec", none⟩, ToolCallStatus.awaitingApproval, some ⟨0⟩⟩]⟩,
          some 0, false, []⟩ =
      some ⟨[⟨⟨"x", "exec", none⟩, ToolCallStatus.awaitingApproval, some ⟨0⟩⟩]⟩) ∧
    (validOutcomes.contains "yes" = false) ∧
    handleToolConfirmation
        ⟨some ⟨[⟨⟨"x", "exec", none⟩, ToolCallStatus.awaitingApproval, some ⟨0⟩⟩]⟩,
          some 0, false, []⟩ "x" "yes" =
      Except.error (OrchError.invalidOutcome "yes") :=
  ⟨rfl, by decide,
    invalidOutcome_rejected _ _ "x" "yes" rfl (by decide)⟩

/-- Claim C2 counterexample: the code throws one and the same error —
`'Tool call not found or not awaiting approval'` — both when no call with
the given id exists (empty batch) and when the call exists but is
`executing`; the two failure cases are not distinguished by distinct
`NotFound` / `InvalidState` errors as the claim states. -/
theorem confirmation_errors_not_distinct :
    handleToolConfirmation ⟨some ⟨[]⟩, none, false, []⟩ "x" "proceed_once" =
      handleToolConfirmation
        ⟨some ⟨[⟨⟨"x", "exec", none⟩, ToolCallStatus.executing, none⟩]⟩,
          none, false, []⟩ "x" "proceed_once" ∧
    handleToolConfirmation ⟨some ⟨[]⟩, none, false, []⟩ "x" "proceed_once" =
      Except.error OrchError.notFoundOrNotAwaiting := by
  constructor
  · rfl
  · rfl

/-- Claim C2 (amended): with the scheduler initialized and a recognized
outcome, `handleToolConfirmation` fails whenever no call with the given
`callId` is `awaiting_approval` — both when the id is absent from the
batch and when it is present with a different status — but with the
single combined error in both cases; the failure is returned before
anything is delegated to the scheduler, so no state is mutated. -/
theorem confirmation_combined_failure (s : OrchState) (sched : SchedulerView)
    (callId outcome : String)
    (hs : s.toolScheduler = some sched)
    (hout : validOutcomes.contains outcome = true)
    (hfail : ∀ tc ∈ sched.toolCalls, tc.request.callId = callId →
      tc.status ≠ ToolCallStatus.awaitingApproval) :
    handleToolConfirmation s callId outcome =
      Except.error OrchError.notFoundOrNotAwaiting := by
  unfold handleToolConfirmation
  rw [hs]
  simp only [hout, if_true]
  cases hfind : sched.toolCalls.find? (fun tc => tc.request.callId == callId) with
  | none => rfl
  | some tc =>
      have hmem : tc ∈ sched.toolCalls := List.mem_of_find?_eq_some hfind
      have hid : tc.request.callId = callId := by
        simpa using List.find?_some hfind
      have hne := hfail tc hmem hid
      simp [hne]

/-- Claim C2 witness: the combined failure at a concrete state holding one
`executing` call with the looked-up id. -/
theorem confirmation_combined_failure_witness :
    (OrchState.toolScheduler
        ⟨some ⟨[⟨⟨"x", "exec", none⟩, ToolCallStatus.executing, none⟩]⟩,
          none, false, []⟩ =
      some ⟨[⟨⟨"x", "exec", none⟩, ToolCallStatus.executing, none⟩]⟩) ∧
    (validOutcomes.contains "proceed_once" = true) ∧
    (∀ tc ∈ SchedulerView.toolCalls
        ⟨[⟨⟨"x", "exec", none⟩, ToolCallStatus.executing, none⟩]⟩,
      tc.request.callId = "x" → tc.status ≠ ToolCallStatus.awaitingApproval) ∧
    handleToolConfirmation
        ⟨some ⟨[⟨⟨"x", "exec", none⟩, ToolCallStatus.executing, none⟩]⟩,
          none, false, []⟩ "x" "proceed_once" =
      Except.error OrchError.notFoundOrNotAwaiting :=
  ⟨rfl, by decide, by decide,
    confirmation_combined_failure _ _ "x" "proceed_once" rfl (by decide)
      (by decide)⟩

/-- Claim C5: whenever no output channel is current, the status-update
handler, the output-chunk handler and the batch-completion result emission
all emit nothing to the channel; the status-update handler also leaves the
state (including the de-duplication set) untouched. -/
theorem events_dropped_without_channel (s : OrchState)
    (tcs completedCalls : List ToolCall) (callId chunk : String)
    (h : s.currentResponse = none) :
    handleToolCallsUpdate s tcs = (s, []) ∧
    handleOutputUpdate s callId chunk = [] ∧
    (handleAllToolCallsComplete s completedCalls).1 = [] := by
  refine ⟨?_, ?_, ?_⟩
  · simp [handleToolCallsUpdate, h]
  · simp [handleOutputUpdate, h]
  · simp [handleAllToolCallsComplete, h]

/-- Claim C5 witness: all three handlers emit nothing at a concrete state
with no current channel, even with live calls and pending chunks. -/
theorem events_dropped_without_channel_witness :
    (OrchState.currentResponse
        ⟨some ⟨[⟨⟨"x", "exec", none⟩, ToolCallStatus.awaitingApproval, some ⟨1⟩⟩]⟩,
          none, true, []⟩ = none) ∧
    (handleToolCallsUpdate
        ⟨some ⟨[⟨⟨"x", "exec", none⟩, ToolCallStatus.awaitingApproval, some ⟨1⟩⟩]⟩,
          none, true, []⟩
        [⟨⟨"x", "exec", none⟩, ToolCallStatus.awaitingApproval, some ⟨1⟩⟩] =
        (⟨some ⟨[⟨⟨"x", "exec", none⟩, ToolCallStatus.awaitingApproval, some ⟨1⟩⟩]⟩,
          none, true, []⟩, []) ∧
      handleOutputUpdate
        ⟨some ⟨[⟨⟨"x", "exec", none⟩, ToolCallStatus.awaitingApproval, some ⟨1⟩⟩]⟩,
          none, true, []⟩ "x" "chunk" = [] ∧
      (handleAllToolCallsComplete
        ⟨some ⟨[⟨⟨"x", "exec", none⟩, ToolCallStatus.awaitingApproval, some ⟨1⟩⟩]⟩,
          none, true, []⟩
        [⟨⟨"x", "exec", none⟩, ToolCallStatus.success, none⟩]).1 = []) :=
  ⟨rfl, events_dropped_without_channel _
    [⟨⟨"x", "exec", none⟩, ToolCallStatus.awaitingApproval, some ⟨1⟩⟩]
    [⟨⟨"x", "exec", none⟩, ToolCallStatus.success, none⟩] "x" "chunk" rfl⟩

/-- Claim C4: a call whose status is `success` contributes no event in the
status-update handler (its loop body returns no events and leaves the
de-duplication set alone); success results surface only through the
batch-completion path, which emits exactly one result event per terminal
call in batch order on the current channel and hands the full terminal
list to the externally-registered completion callback exactly when one is
set. -/
theorem success_results_only_at_completion (s : OrchState) (resp : Nat)
    (sent : List String) (tc : ToolCall) (completedCalls : List ToolCall)
    (hst : tc.status = ToolCallStatus.success)
    (hch : s.currentResponse = some resp) :
    processUpdate resp sent tc = (sent, []) ∧
    (handleAllToolCallsComplete s completedCalls).1 =
      completedCalls.map (fun c => Event.toolResult resp c) ∧
    ((handleAllToolCallsComplete s completedCalls).2 =
      if s.toolCompletionCallback then some completedCalls else none) := by
  refine ⟨?_, ?_, ?_⟩
  · simp [processUpdate, hst]
  · simp [handleAllToolCallsComplete, hch]
  · simp [handleAllToolCallsComplete]

/-- Claim C4 witness: at a concrete state with a current channel and a
registered callback, a `success` call produces nothing in the update loop
while the completion path emits the two results in order and invokes the
callback with the full list. -/
theorem success_results_only_at_completion_witness :
    (ToolCall.status ⟨⟨"a", "ls", none⟩, ToolCallStatus.success, none⟩ =
      ToolCallStatus.success) ∧
    (OrchState.currentResponse ⟨some ⟨[]⟩, some 5, true, []⟩ = some 5) ∧
    (processUpdate 5 ["z"] ⟨⟨"a", "ls", none⟩, ToolCallStatus.success, none⟩ =
        (["z"], []) ∧
      (handleAllToolCallsComplete ⟨some ⟨[]⟩, some 5, true, []⟩
          [⟨⟨"a", "ls", none⟩, ToolCallStatus.success, none⟩,
            ⟨⟨"b", "exec", none⟩, ToolCallStatus.cancelled, none⟩]).1 =
        [Event.toolResult 5 ⟨⟨"a", "ls", none⟩, ToolCallStatus.success, none⟩,
          Event.toolResult 5 ⟨⟨"b", "exec", none⟩, ToolCallStatus.cancelled, none⟩] ∧
      ((handleAllToolCallsComplete ⟨some ⟨[]⟩, some 5, true, []⟩
          [⟨⟨"a", "ls", none⟩, ToolCallStatus.success, none⟩,
            ⟨⟨"b", "exec", none⟩, ToolCallStatus.cancelled, none⟩]).2 =
        if OrchState.toolCompletionCallback ⟨some ⟨[]⟩, some 5, true, []⟩ then
          some [⟨⟨"a", "ls", none⟩, ToolCallStatus.success, none⟩,
            ⟨⟨"b", "exec", none⟩, ToolCallStatus.cancelled, none⟩]
        else none)) :=
  ⟨rfl, rfl, success_results_only_at_completion ⟨some ⟨[]⟩, some 5, true, []⟩ 5
    ["z"] ⟨⟨"a", "ls", none⟩, ToolCallStatus.success, none⟩
    [⟨⟨"a", "ls", none⟩, ToolCallStatus.success, none⟩,
      ⟨⟨"b", "exec", none⟩, ToolCallStatus.cancelled, none⟩] rfl rfl⟩

/-- Claim C8: with the scheduler initialized, `scheduleToolCalls` first
records the output channel as current (both as the first action of its
trace and in the successor state), then emits exactly one started event
carrying `callId`, `name` and `args` per request, in request order, and
only after all of them delegates the whole batch to the scheduler's
`schedule` as the final action. -/
theorem schedule_records_emits_then_delegates (s : OrchState)
    (sched : SchedulerView) (reqs : List ToolCallRequestInfo) (ch : Nat)
    (hs : s.toolScheduler = some sched) :
    scheduleToolCalls s reqs ch =
      ({ s with currentResponse := some ch },
        Except.ok (SchedAction.setCurrentResponse ch ::
          (reqs.map (fun r =>
            SchedAction.emit (Event.toolCall ch r.callId r.name r.args)) ++
            [SchedAction.delegateSchedule reqs]))) := by
  simp [scheduleToolCalls, hs, startedActions_eq_map]

/-- Claim C8 witness: the full ordered trace for a concrete two-request
batch. -/
theorem schedule_records_emits_then_delegates_witness :
    (OrchState.toolScheduler ⟨some ⟨[]⟩, none, false, []⟩ = some ⟨[]⟩) ∧
    scheduleToolCalls ⟨some ⟨[]⟩, none, false, []⟩
        [⟨"a", "list_dir", none⟩, ⟨"b", "exec", some ⟨some (ArgVal.str "rm"), []⟩⟩] 2 =
      (⟨some ⟨[]⟩, some 2, false, []⟩,
        Except.ok [SchedAction.setCurrentResponse 2,
          SchedAction.emit (Event.toolCall 2 "a" "list_dir" none),
          SchedAction.emit (Event.toolCall 2 "b" "exec"
            (some ⟨some (ArgVal.str "rm"), []⟩)),
          SchedAction.delegateSchedule
            [⟨"a", "list_dir", none⟩,
              ⟨"b", "exec", some ⟨some (ArgVal.str "rm"), []⟩⟩]]) :=
  ⟨rfl, by
    have := schedule_records_emits_then_delegates ⟨some ⟨[]⟩, none, false, []⟩ ⟨[]⟩
      [⟨"a", "list_dir", none⟩, ⟨"b", "exec", some ⟨some (ArgVal.str "rm"), []⟩⟩]
      2 rfl
    simpa using this⟩

/-- Claim C3: `cancelAllOperations` maps the scheduler's live call list so
that every call currently `awaiting_approval` or `executing` becomes
`cancelled`, and then releases the current output channel and clears the
de-duplication set. -/
theorem cancelAll_cancels_then_releases (s : OrchState) (sched : SchedulerView)
    (hs : s.toolScheduler = some sched) :
    (cancelAllOperations s).toolScheduler =
      some ⟨sched.toolCalls.map cancelCall⟩ ∧
    (∀ tc : ToolCall, tc.status = ToolCallStatus.awaitingApproval ∨
        tc.status = ToolCallStatus.executing →
      cancelCall tc = { tc with status := ToolCallStatus.cancelled }) ∧
    (cancelAllOperations s).currentResponse = none ∧
    (cancelAllOperations s).sentConfirmationEvents = [] := by
  refine ⟨?_, ?_, ?_, ?_⟩
  · simp [cancelAllOperations, clearCurrentResponse, hs]
  · intro tc h
    simp [cancelCall, h]
  · simp [cancelAllOperations, clearCurrentResponse, hs]
  · simp [cancelAllOperations, clearCurrentResponse, hs]

/-- Claim C3 witness: cancelling at a concrete state with one
`awaiting_approval` and one `success` call. -/
theorem cancelAll_cancels_then_releases_witness :
    (OrchState.toolScheduler
        ⟨some ⟨[⟨⟨"b", "exec", none⟩, ToolCallStatus.awaitingApproval, some ⟨1⟩⟩,
          ⟨⟨"a", "ls", none⟩, ToolCallStatus.success, none⟩]⟩, some 4, true, ["b"]⟩ =
      some ⟨[⟨⟨"b", "exec", none⟩, ToolCallStatus.awaitingApproval, some ⟨1⟩⟩,
        ⟨⟨"a", "ls", none⟩, ToolCallStatus.success, none⟩]⟩) ∧
    ((cancelAllOperations
        ⟨some ⟨[⟨⟨"b", "exec", none⟩, ToolCallStatus.awaitingApproval, some ⟨1⟩⟩,
          ⟨⟨"a", "ls", none⟩, ToolCallStatus.success, none⟩]⟩,
          some 4, true, ["b"]⟩).toolScheduler =
      some ⟨[⟨⟨"b", "exec", none⟩, ToolCallStatus.awaitingApproval, some ⟨1⟩⟩,
        ⟨⟨"a", "ls", none⟩, ToolCallStatus.success, none⟩].map cancelCall⟩ ∧
      (∀ tc : ToolCall, tc.status = ToolCallStatus.awaitingApproval ∨
          tc.status = ToolCallStatus.executing →
        cancelCall tc = { tc with status := ToolCallStatus.cancelled }) ∧
      (cancelAllOperations
        ⟨some ⟨[⟨⟨"b", "exec", none⟩, ToolCallStatus.awaitingApproval, some ⟨1⟩⟩,
          ⟨⟨"a", "ls", none⟩, ToolCallStatus.success, none⟩]⟩,
          some 4, true, ["b"]⟩).currentResponse = none ∧
      (cancelAllOperations
        ⟨some ⟨[⟨⟨"b", "exec", none⟩, ToolCallStatus.awaitingApproval, some ⟨1⟩⟩,
          ⟨⟨"a", "ls", none⟩, ToolCallStatus.success, none⟩]⟩,
          some 4, true, ["b"]⟩).sentConfirmationEvents = []) :=
  ⟨rfl, cancelAll_cancels_then_releases _ _ rfl⟩

/-- Claim C10: `cancelAllOperations` rewrites the call list pointwise by
`cancelCall`, and `cancelCall` leaves every call whose status is
`validating`, `success`, `error` or `cancelled` entirely unchanged — in
particular a `validating` call is not moved to `cancelled` — while on any
call it can only touch the status field: `request` and
`confirmationDetails` always survive untouched. -/
theorem cancelAll_frame (s : OrchState) (sched : SchedulerView)
    (hs : s.toolScheduler = some sched) :
    (cancelAllOperations s).toolScheduler =
      some ⟨sched.toolCalls.map cancelCall⟩ ∧
    (∀ tc : ToolCall, tc.status = ToolCallStatus.validating ∨
        tc.status = ToolCallStatus.success ∨
        tc.status = ToolCallStatus.error ∨
        tc.status = ToolCallStatus.cancelled →
      cancelCall tc = tc) ∧
    (∀ tc : ToolCall, (cancelCall tc).request = tc.request ∧
      (cancelCall tc).confirmationDetails = tc.confirmationDetails) := by
  refine ⟨?_, ?_, ?_⟩
  · simp [cancelAllOperations, clearCurrentResponse, hs]
  · intro tc h
    rcases h with h | h | h | h <;> simp [cancelCall, h]
  · intro tc
    unfold cancelCall
    split <;> simp

/-- Claim C10 witness: a concrete state with one call of every status;
the frame conditions instantiate there. -/
theorem cancelAll_frame_witness :
    (OrchState.toolScheduler
        ⟨some ⟨[⟨⟨"v", "t", none⟩, ToolCallStatus.validating, none⟩,
          ⟨⟨"s", "t", none⟩, ToolCallStatus.success, none⟩]⟩, some 1, false, []⟩ =
      some ⟨[⟨⟨"v", "t", none⟩, ToolCallStatus.validating, none⟩,
        ⟨⟨"s", "t", none⟩, ToolCallStatus.success, none⟩]⟩) ∧
    ((cancelAllOperations
        ⟨some ⟨[⟨⟨"v", "t", none⟩, ToolCallStatus.validating, none⟩,
          ⟨⟨"s", "t", none⟩, ToolCallStatus.success, none⟩]⟩,
          some 1, false, []⟩).toolScheduler =
      some ⟨[⟨⟨"v", "t", none⟩, ToolCallStatus.validating, none⟩,
        ⟨⟨"s", "t", none⟩, ToolCallStatus.success, none⟩].map cancelCall⟩ ∧
      (∀ tc : ToolCall, tc.status = ToolCallStatus.validating ∨
          tc.status = ToolCallStatus.success ∨
          tc.status = ToolCallStatus.error ∨
          tc.status = ToolCallStatus.cancelled →
        cancelCall tc = tc) ∧
      (∀ tc : ToolCall, (cancelCall tc).request = tc.request ∧
        (cancelCall tc).confirmationDetails = tc.confirmationDetails)) :=
  ⟨rfl, cancelAll_frame _ _ rfl⟩

lemma confirmCount_append (c : String) (a b : List Event) :
    confirmCount c (a ++ b) = confirmCount c a + confirmCount c b := by
  simp [confirmCount, List.filter_append]

lemma indC_le_one (c : String) (sent : List String) : indC c sent ≤ 1 := by
  unfold indC
  split <;> omega

lemma actionEvents_started_append (ch : Nat) (l : List ToolCallRequestInfo)
    (tail : List SchedAction) :
    actionEvents (startedActions ch l ++ tail) =
      l.map (fun r => Event.toolCall ch r.callId r.name r.args) ++
        actionEvents tail := by
  induction l with
  | nil => rfl
  | cons r rs ih => simp [startedActions, actionEvents, ih]

lemma confirmCount_toolCall_map (c : String) (ch : Nat)
    (l : List ToolCallRequestInfo) :
    confirmCount c
      (l.map (fun r => Event.toolCall ch r.callId r.name r.args)) = 0 := by
  induction l with
  | nil => rfl
  | cons r rs _ => simp [confirmCount, isConfirmFor]

lemma confirmCount_toolResult_map (c : String) (resp : Nat) (l : List ToolCall) :
    confirmCount c (l.map (fun tc => Event.toolResult resp tc)) = 0 := by
  induction l with
  | nil => rfl
  | cons tc tcs _ => simp [confirmCount, isConfirmFor]

lemma processUpdate_bound (resp : Nat) (sent : List String) (tc : ToolCall)
    (c : String) :
    confirmCount c (processUpdate resp sent tc).2 + indC c sent ≤
      indC c (processUpdate resp sent tc).1 := by
  unfold processUpdate
  cases hst : tc.status
  case awaitingApproval =>
    by_cases hc : tc.request.callId ∈ sent
    · simp [hc, confirmCount, indC]
    · by_cases heq : tc.request.callId = c
      · subst heq
        simp [hc, confirmCount, isConfirmFor, indC]
      · have hbe : (tc.request.callId == c) = false := by
          simpa using heq
        have heq' : ¬c = tc.request.callId := fun h => heq h.symm
        simp [hc, confirmCount, isConfirmFor, indC, hbe, heq']
  all_goals simp [confirmCount, isConfirmFor, indC]

lemma processUpdates_bound (resp : Nat) (c : String) :
    ∀ (tcs : List ToolCall) (sent : List String),
      confirmCount c (processUpdates resp sent tcs).2 + indC c sent ≤
        indC c (processUpdates resp sent tcs).1 := by
  intro tcs
  induction tcs with
  | nil => intro sent; simp [processUpdates, confirmCount]
  | cons tc tcs ih =>
      intro sent
      have h1 := processUpdate_bound resp sent tc c
      have h2 := ih (processUpdate resp sent tc).1
      simp only [processUpdates, confirmCount_append]
      omega

lemma stepOp_bound (s : OrchState) (op : Op) (c : String)
    (h1 : op ≠ Op.clearResponse) (h2 : op ≠ Op.cancelAll) :
    confirmCount c (stepOp s op).2 + indC c s.sentConfirmationEvents ≤
      indC c (stepOp s op).1.sentConfirmationEvents := by
  cases op with
  | schedule reqs ch =>
      cases hs : s.toolScheduler with
      | none => simp [stepOp, scheduleToolCalls, hs, confirmCount]
      | some sched =>
          simp [stepOp, scheduleToolCalls, hs, actionEvents,
            actionEvents_started_append, confirmCount_append,
            confirmCount_toolCall_map]
  | update tcs =>
      cases hc : s.currentResponse with
      | none => simp [stepOp, handleToolCallsUpdate, hc, confirmCount]
      | some resp =>
          have := processUpdates_bound resp c tcs s.sentConfirmationEvents
          simpa [stepOp, handleToolCallsUpdate, hc] using this
  | outputUpdate cid chunk =>
      cases hc : s.currentResponse with
      | none => simp [stepOp, handleOutputUpdate, hc, confirmCount]
      | some resp =>
          simp [stepOp, handleOutputUpdate, hc, confirmCount, isConfirmFor]
  | complete calls =>
      cases hc : s.currentResponse with
      | none => simp [stepOp, handleAllToolCallsComplete, hc, confirmCount]
      | some resp =>
          simp [stepOp, handleAllToolCallsComplete, hc,
            confirmCount_toolResult_map]
  | clearResponse => exact absurd rfl h1
  | cancelAll => exact absurd rfl h2

lemma runOps_bound (c : String) :
    ∀ (ops : List Op) (s : OrchState),
      (∀ op ∈ ops, op ≠ Op.clearResponse ∧ op ≠ Op.cancelAll) →
      confirmCount c (runOps s ops).2 + indC c s.sentConfirmationEvents ≤
        indC c (runOps s ops).1.sentConfirmationEvents := by
  intro ops
  induction ops with
  | nil => intro s _; simp [runOps, confirmCount]
  | cons op ops ih =>
      intro s h
      have hop := h op (List.mem_cons_self op ops)
      have h1 := stepOp_bound s op c hop.1 hop.2
      have h2 := ih (stepOp s op).1 (fun o ho => h o (List.mem_cons_of_mem op ho))
      simp only [runOps, confirmCount_append]
      omega

lemma processUpdate_mono (resp : Nat) (sent : List String) (tc : ToolCall)
    (x : String) (hx : x ∈ sent) :
    x ∈ (processUpdate resp sent tc).1 := by
  unfold processUpdate
  cases tc.status
  case awaitingApproval =>
    by_cases hc : tc.request.callId ∈ sent <;> simp [hc, hx]
  all_goals simpa using hx

lemma processUpdates_mono (resp : Nat) :
    ∀ (tcs : List ToolCall) (sent : List String) (x : String),
      x ∈ sent → x ∈ (processUpdates resp sent tcs).1 := by
  intro tcs
  induction tcs with
  | nil => intro sent x hx; simpa [processUpdates] using hx
  | cons tc tcs ih =>
      intro sent x hx
      simp only [processUpdates]
      exact ih (processUpdate resp sent tc).1 x (processUpdate_mono resp sent tc x hx)

lemma stepOp_mono (s : OrchState) (op : Op) (x : String)
    (h1 : op ≠ Op.clearResponse) (h2 : op ≠ Op.cancelAll)
    (hx : x ∈ s.sentConfirmationEvents) :
    x ∈ (stepOp s op).1.sentConfirmationEvents := by
  cases op with
  | schedule reqs ch =>
      cases hs : s.toolScheduler with
      | none => simpa [stepOp, scheduleToolCalls, hs] using hx
      | some sched => simpa [stepOp, scheduleToolCalls, hs] using hx
  | update tcs =>
      cases hc : s.currentResponse with
      | none => simpa [stepOp, handleToolCallsUpdate, hc] using hx
      | some resp =>
          have := processUpdates_mono resp tcs s.sentConfirmationEvents x hx
          simpa [stepOp, handleToolCallsUpdate, hc] using this
  | outputUpdate cid chunk => simpa [stepOp] using hx
  | complete calls => simpa [stepOp] using hx
  | clearResponse => exact absurd rfl h1
  | cancelAll => exact absurd rfl h2

/-- Claim C1: across any run of orchestrator operations that never
releases the current output channel, at most one confirmation-request
event is ever emitted for a given `callId` (so at most one per output
channel, channels only changing together with or after a release in
actual use); within the update handler a confirmation event for a call is
emitted only if its `callId` is not yet in the de-duplication set, and
emitting it adds the `callId` to the set exactly once together with
exactly one event; no operation other than a release ever removes an
entry; and the set is cleared exactly when `clearCurrentResponse` releases
the current output channel. -/
theorem confirmation_dedup_invariant (s : OrchState) (ops : List Op)
    (c : String)
    (h : ∀ op ∈ ops, op ≠ Op.clearResponse ∧ op ≠ Op.cancelAll) :
    confirmCount c (runOps s ops).2 + indC c s.sentConfirmationEvents ≤ 1 ∧
    (∀ (resp : Nat) (sent : List String) (tc : ToolCall),
      tc.request.callId ∈ sent →
      confirmCount tc.request.callId (processUpdate resp sent tc).2 = 0 ∧
      (processUpdate resp sent tc).1 = sent) ∧
    (∀ (resp : Nat) (sent : List String) (tc : ToolCall),
      tc.status = ToolCallStatus.awaitingApproval →
      tc.request.callId ∉ sent →
      (processUpdate resp sent tc).1 = tc.request.callId :: sent ∧
      confirmCount tc.request.callId (processUpdate resp sent tc).2 = 1) ∧
    (∀ (op : Op) (x : String), op ≠ Op.clearResponse → op ≠ Op.cancelAll →
      x ∈ s.sentConfirmationEvents →
      x ∈ (stepOp s op).1.sentConfirmationEvents) ∧
    (clearCurrentResponse s).sentConfirmationEvents = [] ∧
    (clearCurrentResponse s).currentResponse = none := by
  refine ⟨?_, ?_, ?_, ?_, rfl, rfl⟩
  · have hb := runOps_bound c ops s h
    have hle := indC_le_one c (runOps s ops).1.sentConfirmationEvents
    omega
  · intro resp sent tc hmem
    unfold processUpdate
    cases tc.status <;>
      simp [hmem, confirmCount, isConfirmFor]
  · intro resp sent tc hst hmem
    unfold processUpdate
    rw [hst]
    simp [hmem, confirmCount, isConfirmFor]
  · intro op x hop1 hop2 hx
    exact stepOp_mono s op x hop1 hop2 hx

/-- Claim C1 witness: a concrete trace of two consecutive status updates
both reporting the same call as `awaiting_approval`, run from a state with
a current channel and an empty de-duplication set; the invariant
instantiates there. -/
theorem confirmation_dedup_invariant_witness :
    (∀ op ∈
        [Op.update [⟨⟨"b", "exec", none⟩, ToolCallStatus.awaitingApproval, some ⟨1⟩⟩],
          Op.update [⟨⟨"b", "exec", none⟩, ToolCallStatus.awaitingApproval, some ⟨1⟩⟩]],
      op ≠ Op.clearResponse ∧ op ≠ Op.cancelAll) ∧
    (confirmCount "b"
        (runOps ⟨some ⟨[]⟩, some 0, false, []⟩
          [Op.update [⟨⟨"b", "exec", none⟩, ToolCallStatus.awaitingApproval, some ⟨1⟩⟩],
            Op.update [⟨⟨"b", "exec", none⟩, ToolCallStatus.awaitingApproval, some ⟨1⟩⟩]]).2 +
        indC "b" (OrchState.sentConfirmationEvents ⟨some ⟨[]⟩, some 0, false, []⟩) ≤ 1 ∧
      (∀ (resp : Nat) (sent : List String) (tc : ToolCall),
        tc.request.callId ∈ sent →
        confirmCount tc.request.callId (processUpdate resp sent tc).2 = 0 ∧
        (processUpdate resp sent tc).1 = sent) ∧
      (∀ (resp : Nat) (sent : List String) (tc : ToolCall),
        tc.status = ToolCallStatus.awaitingApproval →
        tc.request.callId ∉ sent →
        (processUpdate resp sent tc).1 = tc.request.callId :: sent ∧
        confirmCount tc.request.callId (processUpdate resp sent tc).2 = 1) ∧
      (∀ (op : Op) (x : String), op ≠ Op.clearResponse → op ≠ Op.cancelAll →
        x ∈ OrchState.sentConfirmationEvents ⟨some ⟨[]⟩, some 0, false, []⟩ →
        x ∈ (stepOp ⟨some ⟨[]⟩, some 0, false, []⟩ op).1.sentConfirmationEvents) ∧
      (clearCurrentResponse ⟨some ⟨[]⟩, some 0, false, []⟩).sentConfirmationEvents = [] ∧
      (clearCurrentResponse ⟨some ⟨[]⟩, some 0, false, []⟩).currentResponse = none) :=
  ⟨by decide,
    confirmation_dedup_invariant ⟨some ⟨[]⟩, some 0, false, []⟩
      [Op.update [⟨⟨"b", "exec", none⟩, ToolCallStatus.awaitingApproval, some ⟨1⟩⟩],
        Op.update [⟨⟨"b", "exec", none⟩, ToolCallStatus.awaitingApproval, some ⟨1⟩⟩]]
      "b" (by decide)⟩
